import Mathlib

set_option maxRecDepth 10000

/-
Verification of the geocropper perspective-crop core.

The app layer (cropper.js) is translated directly; the geometry helpers it
imports from geometry.js (not part of the sources at hand) are modelled from
the specification, as marked in their doc comments.  Real numbers in the
program are modelled exactly: rational arithmetic (ℚ) for the coordinate and
pixel pipeline, ℝ with Real.sqrt for the edge-length computation.
-/

namespace Geocropper

/-- A 2D point with rational coordinates, `{x, y}` in the program. -/
structure Point where
  x : ℚ
  y : ℚ
deriving DecidableEq

/-- An ordered quadrilateral: (top-left, top-right, bottom-right, bottom-left). -/
structure Quad where
  p0 : Point
  p1 : Point
  p2 : Point
  p3 : Point
deriving DecidableEq

/-- A 3x3 matrix, row-major, as used for homographies. -/
structure Mat3 where
  m00 : ℚ
  m01 : ℚ
  m02 : ℚ
  m10 : ℚ
  m11 : ℚ
  m12 : ℚ
  m20 : ℚ
  m21 : ℚ
  m22 : ℚ
deriving DecidableEq

/-- A homogeneous 3-vector `(x, y, w)`. -/
def Vec3 : Type := ℚ × ℚ × ℚ

/-- An RGBA color sample, one natural number per 8-bit channel. -/
structure RGBA where
  r : ℕ
  g : ℕ
  b : ℕ
  a : ℕ
deriving DecidableEq

/-- Channel accessor: channels 0,1,2,3 are r,g,b,a. -/
def RGBA.ch (c : RGBA) (k : ℕ) : ℕ :=
  match k with
  | 0 => c.r
  | 1 => c.g
  | 2 => c.b
  | _ => c.a

/-- A pixel buffer with dimensions, mirroring ImageData: row-major RGBA bytes. -/
structure ImageData where
  width : ℕ
  height : ℕ
  data : List ℕ
deriving DecidableEq

/-- The error taxonomy of the spec (section 7). -/
inductive CropError where
  | invalidQuad
  | singularTransform
  | singularMatrix
  | atInfinity
deriving DecidableEq

/-- Modelled from the spec: `project` is the raw matrix-vector product of
geometry.js's `multiply_mat3_vec3` applied to a homogeneous point. -/
def multiply_mat3_vec3 (m : Mat3) (v : Vec3) : Vec3 :=
  (m.m00 * v.1 + m.m01 * v.2.1 + m.m02 * v.2.2,
   m.m10 * v.1 + m.m11 * v.2.1 + m.m12 * v.2.2,
   m.m20 * v.1 + m.m21 * v.2.1 + m.m22 * v.2.2)

/-- Squared Euclidean distance between two points (used for the epsilon test). -/
def sq_dist (p q : Point) : ℚ :=
  (p.x - q.x) ^ 2 + (p.y - q.y) ^ 2

/-- Cross product of the consecutive edge vectors `b - a` and `c - b`. -/
def edge_cross (a b c : Point) : ℚ :=
  (b.x - a.x) * (c.y - b.y) - (b.y - a.y) * (c.x - b.x)

/-- Epsilon for the coincident-corner test, squared (epsilon = 10⁻⁶ pixels). -/
def EPS_SQ : ℚ := 1 / 1000000000000

/-- Modelled from the spec: geometry.js's `is_valid_quad` (spec section 4.1).
Valid iff no two consecutive corners coincide within epsilon and all four
cross products of consecutive edge vectors share the same strict sign
(simple, convex, consistently wound; collinear triples give a zero cross
product and are rejected). -/
def is_valid_quad (q : Quad) : Bool :=
  let c0 := edge_cross q.p0 q.p1 q.p2
  let c1 := edge_cross q.p1 q.p2 q.p3
  let c2 := edge_cross q.p2 q.p3 q.p0
  let c3 := edge_cross q.p3 q.p0 q.p1
  (decide (EPS_SQ ≤ sq_dist q.p0 q.p1) && decide (EPS_SQ ≤ sq_dist q.p1 q.p2) &&
   decide (EPS_SQ ≤ sq_dist q.p2 q.p3) && decide (EPS_SQ ≤ sq_dist q.p3 q.p0)) &&
  ((decide (0 < c0) && decide (0 < c1) && decide (0 < c2) && decide (0 < c3)) ||
   (decide (c0 < 0) && decide (c1 < 0) && decide (c2 < 0) && decide (c3 < 0)))

/-- Dot product of two coefficient lists. -/
def vec_dot (a b : List ℚ) : ℚ :=
  (List.zipWith (fun x y => x * y) a b).sum

/-- Partial pivoting: choose the row whose leading coefficient has the largest
absolute value, returning it together with the remaining rows. -/
def pick_pivot : List (List ℚ) → Option (List ℚ × List (List ℚ))
  | [] => none
  | r :: rs =>
    match pick_pivot rs with
    | none => some (r, [])
    | some (p, rest) =>
      if abs (r.headD 0) < abs (p.headD 0) then some (p, r :: rest) else some (r, rs)

/-- One elimination step: subtract the scaled pivot row from a row and drop the
leading column. -/
def elim_row (p r : List ℚ) : List ℚ :=
  List.zipWith (fun a b => a - b * (r.headD 0 / p.headD 0)) r.tail p.tail

/-- Modelled from the spec: Gaussian elimination with partial pivoting on an
augmented system (each row is the coefficients followed by the right-hand
side), with back-substitution.  Over exact rationals the spec's numerical
tolerance degenerates to an exact zero-pivot test; a zero pivot means the
system is singular and solving fails. -/
def gauss_solve : ℕ → List (List ℚ) → Option (List ℚ)
  | 0, _ => some []
  | n + 1, rows =>
    match pick_pivot rows with
    | none => none
    | some (p, rest) =>
      if p.headD 0 = 0 then none
      else
        match gauss_solve n (rest.map (elim_row p)) with
        | none => none
        | some xs =>
          some ((p.getLastD 0 - vec_dot (p.tail.dropLast) xs) / p.headD 0 :: xs)

attribute [irreducible] gauss_solve

/-- First DLT row of a correspondence `s ↦ d` (the x-equation). -/
def hrow1 (s d : Point) : List ℚ :=
  [s.x, s.y, 1, 0, 0, 0, -(d.x * s.x), -(d.x * s.y), d.x]

/-- Second DLT row of a correspondence `s ↦ d` (the y-equation). -/
def hrow2 (s d : Point) : List ℚ :=
  [0, 0, 0, s.x, s.y, 1, -(d.y * s.x), -(d.y * s.y), d.y]

/-- The augmented 8x8 direct-linear-transform system for the four
correspondences of a quad pair. -/
def dlt_rows (src dst : Quad) : List (List ℚ) :=
  [hrow1 src.p0 dst.p0, hrow2 src.p0 dst.p0,
   hrow1 src.p1 dst.p1, hrow2 src.p1 dst.p1,
   hrow1 src.p2 dst.p2, hrow2 src.p2 dst.p2,
   hrow1 src.p3 dst.p3, hrow2 src.p3 dst.p3]

/-- Modelled from the spec: geometry.js's `compute_homography` (spec section
4.2).  Solves the classical 8x8 DLT system for the 8 unknowns with
`H[2][2] = 1`; fails with `SingularTransform` when the system is singular. -/
def compute_homography (src dst : Quad) : Except CropError Mat3 :=
  match gauss_solve 8 (dlt_rows src dst) with
  | none => Except.error CropError.singularTransform
  | some h =>
    Except.ok ⟨h.getD 0 0, h.getD 1 0, h.getD 2 0,
               h.getD 3 0, h.getD 4 0, h.getD 5 0,
               h.getD 6 0, h.getD 7 0, 1⟩

/-- Determinant of a 3x3 matrix. -/
def det3 (m : Mat3) : ℚ :=
  m.m00 * (m.m11 * m.m22 - m.m12 * m.m21) -
  m.m01 * (m.m10 * m.m22 - m.m12 * m.m20) +
  m.m02 * (m.m10 * m.m21 - m.m11 * m.m20)

/-- Modelled from the spec: geometry.js's `invert_3x3` (spec section 4.3),
the adjugate divided by the determinant; fails with `SingularMatrix` on a
zero determinant (the spec's tolerance, exact over ℚ). -/
def invert_3x3 (m : Mat3) : Except CropError Mat3 :=
  let d := det3 m
  if d = 0 then Except.error CropError.singularMatrix
  else
    Except.ok ⟨(m.m11 * m.m22 - m.m12 * m.m21) / d,
               (m.m02 * m.m21 - m.m01 * m.m22) / d,
               (m.m01 * m.m12 - m.m02 * m.m11) / d,
               (m.m12 * m.m20 - m.m10 * m.m22) / d,
               (m.m00 * m.m22 - m.m02 * m.m20) / d,
               (m.m02 * m.m10 - m.m00 * m.m12) / d,
               (m.m10 * m.m21 - m.m11 * m.m20) / d,
               (m.m01 * m.m20 - m.m00 * m.m21) / d,
               (m.m00 * m.m11 - m.m01 * m.m10) / d⟩

/-- Matrix product of two 3x3 matrices. -/
def mat_mul (p q : Mat3) : Mat3 :=
  ⟨p.m00 * q.m00 + p.m01 * q.m10 + p.m02 * q.m20,
   p.m00 * q.m01 + p.m01 * q.m11 + p.m02 * q.m21,
   p.m00 * q.m02 + p.m01 * q.m12 + p.m02 * q.m22,
   p.m10 * q.m00 + p.m11 * q.m10 + p.m12 * q.m20,
   p.m10 * q.m01 + p.m11 * q.m11 + p.m12 * q.m21,
   p.m10 * q.m02 + p.m11 * q.m12 + p.m12 * q.m22,
   p.m20 * q.m00 + p.m21 * q.m10 + p.m22 * q.m20,
   p.m20 * q.m01 + p.m21 * q.m11 + p.m22 * q.m21,
   p.m20 * q.m02 + p.m21 * q.m12 + p.m22 * q.m22⟩

/-- The 3x3 identity matrix. -/
def mat_id : Mat3 := ⟨1, 0, 0, 0, 1, 0, 0, 0, 1⟩

/-- Clamp an integer coordinate into `[0, n-1]` (edge-clamp sampling policy). -/
def clamp_idx (v : ℤ) (n : ℕ) : ℕ :=
  (max 0 (min v ((n : ℤ) - 1))).toNat

/-- Fetch one RGBA pixel with edge clamping from an ImageData buffer. -/
def get_pixel (img : ImageData) (xi yi : ℤ) : RGBA :=
  let x := clamp_idx xi img.width
  let y := clamp_idx yi img.height
  let base := (y * img.width + x) * 4
  ⟨img.data.getD base 0, img.data.getD (base + 1) 0,
   img.data.getD (base + 2) 0, img.data.getD (base + 3) 0⟩

/-- One bilinearly blended channel, rounded to the nearest integer value. -/
def blend_ch (fx fy : ℚ) (v00 v10 v01 v11 : ℕ) : ℕ :=
  (round ((1 - fx) * (1 - fy) * (v00 : ℚ) + fx * (1 - fy) * (v10 : ℚ) +
          (1 - fx) * fy * (v01 : ℚ) + fx * fy * (v11 : ℚ))).toNat

/-- Modelled from the spec: geometry.js's `bilinear_sample` (spec section 4.5):
floor the coordinates, blend the four neighbors channel-wise with the
fractional weights, clamping out-of-bounds neighbors to the nearest edge
pixel. -/
def bilinear_sample (img : ImageData) (x y : ℚ) : RGBA :=
  let x0 : ℤ := ⌊x⌋
  let y0 : ℤ := ⌊y⌋
  let fx : ℚ := x - (x0 : ℚ)
  let fy : ℚ := y - (y0 : ℚ)
  let c00 := get_pixel img x0 y0
  let c10 := get_pixel img (x0 + 1) y0
  let c01 := get_pixel img x0 (y0 + 1)
  let c11 := get_pixel img (x0 + 1) (y0 + 1)
  ⟨blend_ch fx fy c00.r c10.r c01.r c11.r,
   blend_ch fx fy c00.g c10.g c01.g c11.g,
   blend_ch fx fy c00.b c10.b c01.b c11.b,
   blend_ch fx fy c00.a c10.a c01.a c11.a⟩

/-- In-place update of one list element; writes beyond the end are discarded,
matching a typed-array store at an out-of-range index. -/
def set_at : List ℕ → ℕ → ℕ → List ℕ
  | [], _, _ => []
  | _ :: t, 0, v => v :: t
  | h :: t, n + 1, v => h :: set_at t n v

/-- The four channel stores `dest_data[idx + 0..3] = r,g,b,a` of the loop body
in `perform_crop`. -/
def write4 (buf : List ℕ) (base : ℕ) (c : RGBA) : List ℕ :=
  set_at (set_at (set_at (set_at buf base c.r) (base + 1) c.g) (base + 2) c.b) (base + 3) c.a

/-- The per-pixel sample of the resampling loop: project `(i, j, 1)` through
the inverse homography, perspective-divide, and sample bilinearly.  The
division is exactly the source's unguarded `x_h / w_h` (total division of ℚ). -/
def sample_at (Hinv : Mat3) (src : ImageData) (i j : ℕ) : RGBA :=
  let v := multiply_mat3_vec3 Hinv ((i : ℚ), (j : ℚ), 1)
  bilinear_sample src (v.1 / v.2.2) (v.2.1 / v.2.2)

/-- The loop body of `perform_crop`: write pixel `(i, j)`'s RGBA quadruple at
channel base index `(j * tw + i) * 4`. -/
def write_px (Hinv : Mat3) (src : ImageData) (tw : ℕ) (buf : List ℕ) (j i : ℕ) : List ℕ :=
  write4 buf ((j * tw + i) * 4) (sample_at Hinv src i j)

/-- The nested resampling loop of `perform_crop`, starting from the
zero-initialized destination buffer created by `createImageData`. -/
def resample_loop (Hinv : Mat3) (src : ImageData) (tw th : ℕ) : List ℕ :=
  (List.range th).foldl
    (fun buf j => (List.range tw).foldl (fun buf2 i => write_px Hinv src tw buf2 j i) buf)
    (List.replicate (tw * th * 4) 0)

/-- One row pass of the resampling loop: the inner `for i` loop over the first
`n` columns of row `j` (the loop itself runs it with `n = tw`). -/
def row_pass (Hinv : Mat3) (src : ImageData) (tw j : ℕ) (b : List ℕ) (n : ℕ) : List ℕ :=
  (List.range n).foldl (fun buf2 i => write_px Hinv src tw buf2 j i) b

/-- The outer `for j` loop of the resampling loop over the first `m` rows. -/
def crop_fold (Hinv : Mat3) (src : ImageData) (tw : ℕ) (b : List ℕ) (m : ℕ) : List ℕ :=
  (List.range m).foldl (fun buf j => row_pass Hinv src tw j buf tw) b

/-- The fresh per-call copy `corners.map((p) => ({ x: p.x, y: p.y }))`. -/
def copy_quad (q : Quad) : Quad :=
  ⟨⟨q.p0.x, q.p0.y⟩, ⟨q.p1.x, q.p1.y⟩, ⟨q.p2.x, q.p2.y⟩, ⟨q.p3.x, q.p3.y⟩⟩

/-- The local `dist` of `perform_crop`: `Math.hypot(p.x - q.x, p.y - q.y)`. -/
noncomputable def dist_points (p q : Point) : ℝ :=
  Real.sqrt (((p.x : ℝ) - (q.x : ℝ)) ^ 2 + ((p.y : ℝ) - (q.y : ℝ)) ^ 2)

/-- Target width of `perform_crop`: `Math.max(1, Math.round((width_a + width_b) / 2))`
over the top and bottom edge lengths (JavaScript's `Math.round` is
`⌊x + 1/2⌋`, which is Mathlib's `round`). -/
noncomputable def target_width (q : Quad) : ℤ :=
  max 1 (round ((dist_points q.p0 q.p1 + dist_points q.p3 q.p2) / 2))

/-- Target height of `perform_crop` over the left and right edge lengths. -/
noncomputable def target_height (q : Quad) : ℤ :=
  max 1 (round ((dist_points q.p0 q.p3 + dist_points q.p1 q.p2) / 2))

/-- The canonical axis-aligned destination rectangle `dst_rect` of
`perform_crop`: corners (0,0), (w,0), (w,h), (0,h). -/
def dst_rect (tw th : ℕ) : Quad :=
  ⟨⟨0, 0⟩, ⟨(tw : ℚ), 0⟩, ⟨(tw : ℚ), (th : ℚ)⟩, ⟨0, (th : ℚ)⟩⟩

/-- The transform-and-resample tail of `perform_crop`, with the target size as
a parameter: solve the forward homography, invert it, and run the loop.  A
failure in either geometry call aborts before the destination buffer exists. -/
def crop_with_dims (src_quad : Quad) (src : ImageData) (tw th : ℕ) :
    Except CropError (List ℕ) :=
  match compute_homography src_quad (dst_rect tw th) with
  | Except.error e => Except.error e
  | Except.ok H =>
    match invert_3x3 H with
    | Except.error e => Except.error e
    | Except.ok Hinv => Except.ok (resample_loop Hinv src tw th)

/-- The `perform_crop` function of cropper.js: copy the corners, derive the
target size from average edge lengths, then transform and resample. -/
noncomputable def perform_crop (corners : Quad) (src : ImageData) :
    Except CropError (List ℕ) :=
  let src_quad := copy_quad corners
  crop_with_dims src_quad src (target_width src_quad).toNat (target_height src_quad).toNat

/-- The crop-button click handler: reject an invalid quad before any
transform work, otherwise run `perform_crop`. -/
noncomputable def crop_click (corners : Quad) (src : ImageData) :
    Except CropError (List ℕ) :=
  if is_valid_quad corners then perform_crop corners src
  else Except.error CropError.invalidQuad

/-- The mutable page state touched by `perform_crop`: the corner list, the
source ImageData, and the cropped output canvas (size plus byte data). -/
structure AppState where
  corners : Quad
  src_image_data : ImageData
  cropped_canvas : Option (ℕ × ℕ × List ℕ)
deriving DecidableEq

/-- The page state after a successful crop: only the cropped canvas changed. -/
def cropped_result (s : AppState) (Hinv : Mat3) (tw th : ℕ) : AppState :=
  { s with cropped_canvas := some (tw, th, resample_loop Hinv s.src_image_data tw th) }

/-- `perform_crop` as a transformer of the page state: the only field it
assigns is the cropped canvas, after both geometry calls have succeeded. -/
noncomputable def perform_crop_app (s : AppState) : Except CropError AppState :=
  let src_quad := copy_quad s.corners
  let tw := (target_width src_quad).toNat
  let th := (target_height src_quad).toNat
  match compute_homography src_quad (dst_rect tw th) with
  | Except.error e => Except.error e
  | Except.ok H =>
    match invert_3x3 H with
    | Except.error e => Except.error e
    | Except.ok Hinv =>
      Except.ok { s with
        cropped_canvas := some (tw, th, resample_loop Hinv s.src_image_data tw th) }

/-- Corner accessor by index, mirroring `corners[i]`. -/
def Quad.get (q : Quad) : Fin 4 → Point
  | 0 => q.p0
  | 1 => q.p1
  | 2 => q.p2
  | 3 => q.p3

/-- Corner update by index, mirroring `corners[i].x = ...; corners[i].y = ...`. -/
def Quad.set (q : Quad) (i : Fin 4) (p : Point) : Quad :=
  match i with
  | 0 => { q with p0 := p }
  | 1 => { q with p1 := p }
  | 2 => { q with p2 := p }
  | 3 => { q with p3 := p }

/-- The clamp `Math.min(hi, Math.max(lo, v))` used by every corner mutation. -/
def clamp (lo hi v : ℚ) : ℚ := min hi (max lo v)

/-- The mousemove handler's corner update: when a corner is being dragged,
set it to the pointer position clamped into the canvas. -/
def mousemove_update (q : Quad) (dragging : Option (Fin 4)) (W H mx my : ℚ) : Quad :=
  match dragging with
  | none => q
  | some i => q.set i ⟨clamp 0 W mx, clamp 0 H my⟩

/-- The touchmove handler's corner update (same clamping as mousemove). -/
def touchmove_update (q : Quad) (dragging : Option (Fin 4)) (W H tx ty : ℚ) : Quad :=
  match dragging with
  | none => q
  | some i => q.set i ⟨clamp 0 W tx, clamp 0 H ty⟩

/-- Arrow keys recognized by the keydown handler. -/
inductive ArrowKey where
  | left
  | right
  | up
  | down

/-- The nudge step: 5 pixels with Shift held, otherwise 1. -/
def key_step (shift : Bool) : ℚ := if shift then 5 else 1

/-- The displacement of one arrow-key press. -/
def key_delta (k : ArrowKey) (shift : Bool) : ℚ × ℚ :=
  match k with
  | ArrowKey.left => (-(key_step shift), 0)
  | ArrowKey.right => (key_step shift, 0)
  | ArrowKey.up => (0, -(key_step shift))
  | ArrowKey.down => (0, key_step shift)

/-- The keydown handler's corner update: nudge the selected corner and clamp
it into the canvas. -/
def keydown_update (q : Quad) (sel : Option (Fin 4)) (W H : ℚ) (k : ArrowKey)
    (shift : Bool) : Quad :=
  match sel with
  | none => q
  | some i =>
    let d := key_delta k shift
    let c := q.get i
    q.set i ⟨clamp 0 W (c.x + d.1), clamp 0 H (c.y + d.2)⟩

/-- All four corners lie inside the canvas rectangle `[0, W] × [0, H]`. -/
def in_bounds (W H : ℚ) (q : Quad) : Prop :=
  ∀ i : Fin 4, 0 ≤ (q.get i).x ∧ (q.get i).x ≤ W ∧ 0 ≤ (q.get i).y ∧ (q.get i).y ≤ H

/-- Concrete data: a self-intersecting (bowtie) corner ordering. -/
def bowtie_quad : Quad := ⟨⟨0, 0⟩, ⟨10, 0⟩, ⟨0, 10⟩, ⟨10, 10⟩⟩

/-- Concrete data: four coincident corners (a fully degenerate quad). -/
def zero_quad : Quad := ⟨⟨0, 0⟩, ⟨0, 0⟩, ⟨0, 0⟩, ⟨0, 0⟩⟩

/-- Concrete data: the unit square in TL, TR, BR, BL order. -/
def unit_quad : Quad := ⟨⟨0, 0⟩, ⟨1, 0⟩, ⟨1, 1⟩, ⟨0, 1⟩⟩

/-- Concrete data: a 1x1 source image with one RGBA pixel (5, 6, 7, 8). -/
def img1 : ImageData := ⟨1, 1, [5, 6, 7, 8]⟩

/-- Concrete data: an invertible matrix whose bottom row annihilates every
`(x, y, 1)`, so the homogeneous weight of every projected pixel is 0. -/
def matW0 : Mat3 := ⟨1, 0, 0, 0, 1, 0, 0, 0, 0⟩

/-- Writing preserves the buffer length. -/
theorem set_at_length (l : List ℕ) (i v : ℕ) : (set_at l i v).length = l.length := by
  induction l generalizing i with
  | nil => rfl
  | cons a t ih =>
    cases i with
    | zero => rfl
    | succ n => simp [set_at, ih]

/-- Reading back an in-bounds write. -/
theorem getD_set_at_eq (l : List ℕ) (i v : ℕ) (h : i < l.length) :
    (set_at l i v).getD i 0 = v := by
  induction l generalizing i with
  | nil => simp at h
  | cons a t ih =>
    cases i with
    | zero => rfl
    | succ n =>
      simp only [set_at, List.getD_cons_succ]
      exact ih n (by simpa using h)

/-- Reading any other index is unaffected by a write. -/
theorem getD_set_at_ne (l : List ℕ) (i j v : ℕ) (h : j ≠ i) :
    (set_at l i v).getD j 0 = l.getD j 0 := by
  induction l generalizing i j with
  | nil => rfl
  | cons a t ih =>
    cases i with
    | zero =>
      cases j with
      | zero => exact absurd rfl h
      | succ m => simp [set_at, List.getD_cons_succ]
    | succ n =>
      cases j with
      | zero => rfl
      | succ m =>
        simp only [set_at, List.getD_cons_succ]
        exact ih n m (fun hh => h (by rw [hh]))

/-- The four channel writes preserve the buffer length. -/
theorem write4_length (buf : List ℕ) (base : ℕ) (c : RGBA) :
    (write4 buf base c).length = buf.length := by
  simp [write4, set_at_length]

/-- Indices outside a pixel's four channel slots are unaffected by its write. -/
theorem getD_write4_ne (buf : List ℕ) (base : ℕ) (c : RGBA) (idx : ℕ)
    (h : ∀ k, k < 4 → idx ≠ base + k) :
    (write4 buf base c).getD idx 0 = buf.getD idx 0 := by
  have h0 : idx ≠ base := by have := h 0 (by omega); omega
  have h1 : idx ≠ base + 1 := h 1 (by omega)
  have h2 : idx ≠ base + 2 := h 2 (by omega)
  have h3 : idx ≠ base + 3 := h 3 (by omega)
  unfold write4
  rw [getD_set_at_ne _ _ _ _ h3, getD_set_at_ne _ _ _ _ h2,
      getD_set_at_ne _ _ _ _ h1, getD_set_at_ne _ _ _ _ h0]

/-- Reading back channel `k` of an in-bounds pixel write. -/
theorem getD_write4_k (buf : List ℕ) (base : ℕ) (c : RGBA) (k : ℕ) (hk : k < 4)
    (hlen : base + 3 < buf.length) :
    (write4 buf base c).getD (base + k) 0 = RGBA.ch c k := by
  have l1 : (set_at buf base c.r).length = buf.length := set_at_length _ _ _
  have l2 : (set_at (set_at buf base c.r) (base + 1) c.g).length = buf.length := by
    rw [set_at_length, l1]
  have l3 : (set_at (set_at (set_at buf base c.r) (base + 1) c.g) (base + 2) c.b).length
      = buf.length := by rw [set_at_length, l2]
  interval_cases k
  · show (write4 buf base c).getD (base + 0) 0 = c.r
    unfold write4
    rw [getD_set_at_ne _ _ _ _ (by omega), getD_set_at_ne _ _ _ _ (by omega),
        getD_set_at_ne _ _ _ _ (by omega)]
    have : base + 0 = base := by omega
    rw [this]
    exact getD_set_at_eq _ _ _ (by omega)
  · show (write4 buf base c).getD (base + 1) 0 = c.g
    unfold write4
    rw [getD_set_at_ne _ _ _ _ (by omega), getD_set_at_ne _ _ _ _ (by omega)]
    exact getD_set_at_eq _ _ _ (by omega)
  · show (write4 buf base c).getD (base + 2) 0 = c.b
    unfold write4
    rw [getD_set_at_ne _ _ _ _ (by omega)]
    exact getD_set_at_eq _ _ _ (by omega)
  · show (write4 buf base c).getD (base + 3) 0 = c.a
    unfold write4
    exact getD_set_at_eq _ _ _ (by omega)

/-- A pixel's channel slot stays inside the destination buffer. -/
theorem slot_bound (tw th i j k : ℕ) (hi : i < tw) (hj : j < th) (hk : k < 4) :
    (j * tw + i) * 4 + k < tw * th * 4 := by
  have h2 : (j + 1) * tw ≤ th * tw := Nat.mul_le_mul (by omega) (le_refl tw)
  have e1 : (j + 1) * tw = j * tw + tw := by ring
  have e2 : tw * th = th * tw := Nat.mul_comm tw th
  have h1 : j * tw + i < th * tw := by omega
  rw [e2]
  set B := th * tw
  set A := j * tw
  omega

/-- Channel slots of distinct pixels in the same row are disjoint. -/
theorem slot_ne_same_row (tw j i i' k k' : ℕ) (hk : k < 4) (hk' : k' < 4) (hii : i ≠ i') :
    (j * tw + i) * 4 + k ≠ (j * tw + i') * 4 + k' := by
  set A := j * tw
  omega

/-- Slots of a pixel in an earlier row precede all slots of a later row. -/
theorem slot_lt_of_row_lt (tw i i' k k' j j' : ℕ) (hi : i < tw) (hk : k < 4) (hjj : j < j') :
    (j * tw + i) * 4 + k < (j' * tw + i') * 4 + k' := by
  have h2 : (j + 1) * tw ≤ j' * tw := Nat.mul_le_mul (by omega) (le_refl tw)
  have e1 : (j + 1) * tw = j * tw + tw := by ring
  set A := j * tw
  set B := j' * tw
  omega

/-- Channel slots of pixels in distinct rows are disjoint. -/
theorem slot_ne_diff_row (tw i i' k k' j j' : ℕ) (hi : i < tw) (hi' : i' < tw)
    (hk : k < 4) (hk' : k' < 4) (hjj : j ≠ j') :
    (j * tw + i) * 4 + k ≠ (j' * tw + i') * 4 + k' := by
  rcases Nat.lt_or_ge j j' with h | h
  · exact Nat.ne_of_lt (slot_lt_of_row_lt tw i i' k k' j j' hi hk h)
  · have h' : j' < j := by omega
    exact (Nat.ne_of_lt (slot_lt_of_row_lt tw i' i k' k j' j hi' hk' h')).symm

/-- Every index of the destination buffer is some pixel's channel slot. -/
theorem slot_cover (tw th idx : ℕ) (h : idx < tw * th * 4) :
    ∃ i j k, i < tw ∧ j < th ∧ k < 4 ∧ idx = (j * tw + i) * 4 + k := by
  have htw : 0 < tw := by
    rcases Nat.eq_zero_or_pos tw with h0 | h0
    · subst h0; simp at h
    · exact h0
  refine ⟨(idx / 4) % tw, (idx / 4) / tw, idx % 4, Nat.mod_lt _ htw, ?_, Nat.mod_lt _ (by omega), ?_⟩
  · have h4 : idx / 4 < tw * th := (Nat.div_lt_iff_lt_mul (by omega)).mpr h
    exact (Nat.div_lt_iff_lt_mul htw).mpr (by rw [Nat.mul_comm]; exact h4)
  · have e1 : tw * ((idx / 4) / tw) + (idx / 4) % tw = idx / 4 := Nat.div_add_mod (idx / 4) tw
    have e2 : 4 * (idx / 4) + idx % 4 = idx := Nat.div_add_mod idx 4
    calc idx = 4 * (idx / 4) + idx % 4 := e2.symm
      _ = (tw * ((idx / 4) / tw) + (idx / 4) % tw) * 4 + idx % 4 := by
          rw [e1, Nat.mul_comm]
      _ = ((idx / 4) / tw * tw + (idx / 4) % tw) * 4 + idx % 4 := by
          rw [Nat.mul_comm tw ((idx / 4) / tw)]

/-- Unrolling one step of the inner column loop. -/
theorem row_pass_succ (Hinv : Mat3) (src : ImageData) (tw j : ℕ) (b : List ℕ) (n : ℕ) :
    row_pass Hinv src tw j b (n + 1) =
      write_px Hinv src tw (row_pass Hinv src tw j b n) j n := by
  simp [row_pass, List.range_succ]

/-- The inner loop preserves the buffer length. -/
theorem row_pass_length (Hinv : Mat3) (src : ImageData) (tw j : ℕ) (b : List ℕ) (n : ℕ) :
    (row_pass Hinv src tw j b n).length = b.length := by
  induction n with
  | zero => rfl
  | succ n ih =>
    rw [row_pass_succ]
    simp [write_px, write4_length, ih]

/-- After the inner loop has passed column `i` of row `j`, that pixel's four
channel slots hold its sampled color. -/
theorem row_pass_getD_done (Hinv : Mat3) (src : ImageData) (tw th j : ℕ) (b : List ℕ)
    (n i k : ℕ) (hb : b.length = tw * th * 4) (hj : j < th) (hn : n ≤ tw)
    (hi : i < n) (hk : k < 4) :
    (row_pass Hinv src tw j b n).getD ((j * tw + i) * 4 + k) 0 =
      RGBA.ch (sample_at Hinv src i j) k := by
  induction n with
  | zero => omega
  | succ n ih =>
    rw [row_pass_succ]
    rcases Nat.lt_or_ge i n with h | h
    · rw [write_px, getD_write4_ne]
      · exact ih (by omega) h
      · intro k' hk' heq
        exact slot_ne_same_row tw j i n k k' hk hk' (by omega) heq
    · have hin : i = n := by omega
      subst hin
      rw [write_px]
      have hlen : (j * tw + i) * 4 + 3 < (row_pass Hinv src tw j b i).length := by
        rw [row_pass_length, hb]
        exact slot_bound tw th i j 3 (by omega) hj (by omega)
      exact getD_write4_k _ _ _ k hk hlen

/-- Indices outside row `j`'s written slots are unaffected by the inner loop. -/
theorem row_pass_getD_other (Hinv : Mat3) (src : ImageData) (tw j : ℕ) (b : List ℕ)
    (n idx : ℕ) (h : ∀ i k, i < n → k < 4 → idx ≠ (j * tw + i) * 4 + k) :
    (row_pass Hinv src tw j b n).getD idx 0 = b.getD idx 0 := by
  induction n with
  | zero => rfl
  | succ n ih =>
    rw [row_pass_succ, write_px, getD_write4_ne]
    · exact ih (fun i k hi hk => h i k (by omega) hk)
    · intro k' hk'
      exact h n k' (by omega) hk'

/-- Unrolling one step of the outer row loop. -/
theorem crop_fold_succ (Hinv : Mat3) (src : ImageData) (tw : ℕ) (b : List ℕ) (m : ℕ) :
    crop_fold Hinv src tw b (m + 1) =
      row_pass Hinv src tw m (crop_fold Hinv src tw b m) tw := by
  simp [crop_fold, List.range_succ, row_pass]

/-- The outer loop preserves the buffer length. -/
theorem crop_fold_length (Hinv : Mat3) (src : ImageData) (tw : ℕ) (b : List ℕ) (m : ℕ) :
    (crop_fold Hinv src tw b m).length = b.length := by
  induction m with
  | zero => rfl
  | succ m ih =>
    rw [crop_fold_succ, row_pass_length, ih]

/-- After the outer loop has passed row `j`, every pixel of that row holds
its sampled color. -/
theorem crop_fold_getD (Hinv : Mat3) (src : ImageData) (tw th : ℕ) (b : List ℕ)
    (m i j k : ℕ) (hb : b.length = tw * th * 4) (hm : m ≤ th)
    (hj : j < m) (hi : i < tw) (hk : k < 4) :
    (crop_fold Hinv src tw b m).getD ((j * tw + i) * 4 + k) 0 =
      RGBA.ch (sample_at Hinv src i j) k := by
  induction m with
  | zero => omega
  | succ m ih =>
    rw [crop_fold_succ]
    rcases Nat.lt_or_ge j m with h | h
    · rw [row_pass_getD_other]
      · exact ih (by omega) h
      · intro i' k' hi' hk' heq
        exact slot_ne_diff_row tw i i' k k' j m hi hi' hk hk' (by omega) heq
    · have hjm : j = m := by omega
      subst hjm
      have hb' : (crop_fold Hinv src tw b j).length = tw * th * 4 := by
        rw [crop_fold_length, hb]
      exact row_pass_getD_done Hinv src tw th j _ tw i k hb' (by omega) (le_refl tw) hi hk

/-- The resampling loop is the outer fold started on the zeroed buffer. -/
theorem resample_loop_def (Hinv : Mat3) (src : ImageData) (tw th : ℕ) :
    resample_loop Hinv src tw th =
      crop_fold Hinv src tw (List.replicate (tw * th * 4) 0) th := rfl

/-- The destination buffer has exactly `tw * th * 4` channel slots. -/
theorem resample_loop_length (Hinv : Mat3) (src : ImageData) (tw th : ℕ) :
    (resample_loop Hinv src tw th).length = tw * th * 4 := by
  rw [resample_loop_def, crop_fold_length, List.length_replicate]

/-- Every destination pixel's channel slots hold its sampled color. -/
theorem resample_loop_getD (Hinv : Mat3) (src : ImageData) (tw th i j k : ℕ)
    (hi : i < tw) (hj : j < th) (hk : k < 4) :
    (resample_loop Hinv src tw th).getD ((j * tw + i) * 4 + k) 0 =
      RGBA.ch (sample_at Hinv src i j) k := by
  rw [resample_loop_def]
  exact crop_fold_getD Hinv src tw th _ th i j k (List.length_replicate _ _) (le_refl th) hj hi hk

/-- A successful inversion means the determinant was nonzero, and the result
is an exact left inverse. -/
theorem invert_3x3_ok (m mi : Mat3) (h : invert_3x3 m = Except.ok mi) :
    det3 m ≠ 0 ∧ mat_mul mi m = mat_id := by
  by_cases hd : det3 m = 0
  · rw [invert_3x3] at h
    simp [hd] at h
  · refine ⟨hd, ?_⟩
    rw [invert_3x3] at h
    simp only [hd, if_false, Except.ok.injEq] at h
    rw [← h]
    have hd' : m.m00 * (m.m11 * m.m22 - m.m12 * m.m21) -
        m.m01 * (m.m10 * m.m22 - m.m12 * m.m20) +
        m.m02 * (m.m10 * m.m21 - m.m11 * m.m20) ≠ 0 := by
      simpa [det3] using hd
    simp only [mat_mul, mat_id, det3, Mat3.mk.injEq]
    refine ⟨?_, ?_, ?_, ?_, ?_, ?_, ?_, ?_, ?_⟩ <;> field_simp <;> ring

/-- `compute_homography` can only fail with `SingularTransform`. -/
theorem compute_homography_error (src dst : Quad) (e : CropError)
    (h : compute_homography src dst = Except.error e) : e = CropError.singularTransform := by
  unfold compute_homography at h
  revert h
  rcases gauss_solve 8 (dlt_rows src dst) with _ | xs
  · intro h
    injection h with h1
    exact h1.symm
  · intro h
    exact Except.noConfusion h

/-- `invert_3x3` can only fail with `SingularMatrix`. -/
theorem invert_3x3_error (m : Mat3) (e : CropError)
    (h : invert_3x3 m = Except.error e) : e = CropError.singularMatrix := by
  rw [invert_3x3] at h
  by_cases hd : det3 m = 0
  · simp only [hd, if_true] at h
    injection h with h1
    exact h1.symm
  · simp [hd] at h

/-- The clamp used by the corner mutations lands in `[0, W]`. -/
theorem clamp_bounds (W v : ℚ) (hW : 0 ≤ W) : 0 ≤ clamp 0 W v ∧ clamp 0 W v ≤ W :=
  ⟨le_min hW (le_max_left 0 v), min_le_left W (max 0 v)⟩

/-- Reading a corner after setting one: the set corner if the index matches,
the old corner otherwise. -/
theorem quad_get_set (q : Quad) (i j : Fin 4) (p : Point) :
    (q.set i p).get j = if j = i then p else q.get j := by
  fin_cases i <;> fin_cases j <;> simp [Quad.set, Quad.get]

/-- Unfolding the in-bounds predicate on a literal quad. -/
theorem in_bounds_mk (W H : ℚ) (a b c d : Point) :
    in_bounds W H ⟨a, b, c, d⟩ ↔
      (0 ≤ a.x ∧ a.x ≤ W ∧ 0 ≤ a.y ∧ a.y ≤ H) ∧
      (0 ≤ b.x ∧ b.x ≤ W ∧ 0 ≤ b.y ∧ b.y ≤ H) ∧
      (0 ≤ c.x ∧ c.x ≤ W ∧ 0 ≤ c.y ∧ c.y ≤ H) ∧
      (0 ≤ d.x ∧ d.x ≤ W ∧ 0 ≤ d.y ∧ d.y ≤ H) := by
  constructor
  · intro h
    exact ⟨h 0, h 1, h 2, h 3⟩
  · intro h i
    fin_cases i
    · exact h.1
    · exact h.2.1
    · exact h.2.2.1
    · exact h.2.2.2

/-- Setting one corner to an in-bounds point keeps an in-bounds quad in
bounds. -/
theorem set_in_bounds (W H : ℚ) (q : Quad) (p : Point) (i : Fin 4)
    (hq : in_bounds W H q)
    (hp : 0 ≤ p.x ∧ p.x ≤ W ∧ 0 ≤ p.y ∧ p.y ≤ H) :
    in_bounds W H (q.set i p) := by
  intro j
  rw [quad_get_set]
  by_cases hji : j = i
  · simp only [hji, if_true]
    exact hp
  · simp only [hji, if_false]
    exact hq j

/-- The match chain of `crop_with_dims` is the bind of its three stages, so
the homography solver receives exactly the canonical destination rectangle. -/
theorem crop_with_dims_eq_bind (q : Quad) (s : ImageData) (tw th : ℕ) :
    crop_with_dims q s tw th =
      (compute_homography q (dst_rect tw th)).bind (fun H =>
        (invert_3x3 H).bind (fun Hinv => Except.ok (resample_loop Hinv s tw th))) := by
  unfold crop_with_dims
  cases hc : compute_homography q (dst_rect tw th) with
  | error e => rfl
  | ok H =>
    cases hI : invert_3x3 H with
    | error e => simp [Except.bind, hI]
    | ok Hinv => simp [Except.bind, hI]

/-- Both computed target dimensions are at least one pixel. -/
theorem target_dims_pos (q : Quad) :
    1 ≤ (target_width q).toNat ∧ 1 ≤ (target_height q).toNat := by
  have hw : (1 : ℤ) ≤ target_width q := le_max_left _ _
  have hh : (1 : ℤ) ≤ target_height q := le_max_left _ _
  omega

/-- C1: for every destination pixel `(i, j)` with `i < target_width` and
`j < target_height`, the resampling loop projects `(i, j, 1)` through
`H_inv`, divides by the homogeneous weight, samples the source bilinearly
there, and stores the RGBA quadruple at channel base `(j * target_width + i) * 4`;
the buffer has exactly `tw * th * 4` slots, distinct pixels occupy disjoint
slots, and every slot belongs to some pixel. -/
theorem resample_loop_full_coverage (Hinv : Mat3) (src : ImageData) (tw th : ℕ) :
    (resample_loop Hinv src tw th).length = tw * th * 4
    ∧ (∀ i j k, i < tw → j < th → k < 4 →
        (resample_loop Hinv src tw th).getD ((j * tw + i) * 4 + k) 0 =
          RGBA.ch (bilinear_sample src
            ((multiply_mat3_vec3 Hinv ((i : ℚ), (j : ℚ), 1)).1 /
              (multiply_mat3_vec3 Hinv ((i : ℚ), (j : ℚ), 1)).2.2)
            ((multiply_mat3_vec3 Hinv ((i : ℚ), (j : ℚ), 1)).2.1 /
              (multiply_mat3_vec3 Hinv ((i : ℚ), (j : ℚ), 1)).2.2)) k)
    ∧ (∀ i j i' j' k k', i < tw → i' < tw → k < 4 → k' < 4 → (i, j) ≠ (i', j') →
        (j * tw + i) * 4 + k ≠ (j' * tw + i') * 4 + k')
    ∧ (∀ idx, idx < tw * th * 4 → ∃ i j k, i < tw ∧ j < th ∧ k < 4 ∧
        idx = (j * tw + i) * 4 + k) := by
  refine ⟨resample_loop_length Hinv src tw th, ?_, ?_, slot_cover tw th⟩
  · intro i j k hi hj hk
    exact resample_loop_getD Hinv src tw th i j k hi hj hk
  · intro i j i' j' k k' hi hi' hk hk' hne
    by_cases hjj : j = j'
    · subst hjj
      have hii : i ≠ i' := fun hii => hne (by rw [hii])
      exact slot_ne_same_row tw j i i' k k' hk hk' hii
    · exact slot_ne_diff_row tw i i' k k' j j' hi hi' hk hk' hjj

/-- Witness for C1 at a concrete 1x1 crop with the identity inverse. -/
theorem resample_loop_full_coverage_witness :
    (resample_loop mat_id img1 1 1).getD ((0 * 1 + 0) * 4 + 0) 0 =
      RGBA.ch (bilinear_sample img1
        ((multiply_mat3_vec3 mat_id ((0 : ℚ), (0 : ℚ), 1)).1 /
          (multiply_mat3_vec3 mat_id ((0 : ℚ), (0 : ℚ), 1)).2.2)
        ((multiply_mat3_vec3 mat_id ((0 : ℚ), (0 : ℚ), 1)).2.1 /
          (multiply_mat3_vec3 mat_id ((0 : ℚ), (0 : ℚ), 1)).2.2)) 0 := by
  have h := (resample_loop_full_coverage mat_id img1 1 1).2.1 0 0 0
    (by decide) (by decide) (by decide)
  simpa using h

/-- C2: the target width is `max(1, round((|c0-c1| + |c3-c2|) / 2))` over the
Euclidean lengths of the top and bottom edges, the target height is
`max(1, round((|c0-c3| + |c1-c2|) / 2))` over the left and right edges, and
both are at least 1. -/
theorem target_dims_avg_edge_lengths (q : Quad) :
    target_width q = max 1 (round ((Real.sqrt (((q.p0.x : ℝ) - (q.p1.x : ℝ)) ^ 2 +
          ((q.p0.y : ℝ) - (q.p1.y : ℝ)) ^ 2) +
        Real.sqrt (((q.p3.x : ℝ) - (q.p2.x : ℝ)) ^ 2 +
          ((q.p3.y : ℝ) - (q.p2.y : ℝ)) ^ 2)) / 2))
    ∧ target_height q = max 1 (round ((Real.sqrt (((q.p0.x : ℝ) - (q.p3.x : ℝ)) ^ 2 +
          ((q.p0.y : ℝ) - (q.p3.y : ℝ)) ^ 2) +
        Real.sqrt (((q.p1.x : ℝ) - (q.p2.x : ℝ)) ^ 2 +
          ((q.p1.y : ℝ) - (q.p2.y : ℝ)) ^ 2)) / 2))
    ∧ 1 ≤ target_width q ∧ 1 ≤ target_height q :=
  ⟨rfl, rfl, le_max_left _ _, le_max_left _ _⟩

/-- C3: an invalid quad makes the crop click fail with `InvalidQuad`; no
result buffer is ever produced in that case, so no transform work happens. -/
theorem invalid_quad_rejected (c : Quad) (s : ImageData)
    (h : is_valid_quad c = false) :
    crop_click c s = Except.error CropError.invalidQuad
    ∧ ∀ buf, crop_click c s ≠ Except.ok buf := by
  constructor
  · simp [crop_click, h]
  · intro buf
    simp [crop_click, h]

/-- Witness for C3 at the concrete bowtie quad. -/
theorem invalid_quad_rejected_witness :
    crop_click bowtie_quad img1 = Except.error CropError.invalidQuad :=
  (invalid_quad_rejected bowtie_quad img1 (by with_unfolding_all rfl)).1

/-- C4: a failure of `compute_homography` or of `invert_3x3` propagates as the
failure of the crop tail, which therefore never reaches the buffer-filling
stage; and `perform_crop` is exactly that tail at the computed dimensions. -/
theorem homography_failure_aborts (q : Quad) (s : ImageData) (tw th : ℕ) :
    (∀ e, compute_homography q (dst_rect tw th) = Except.error e →
        crop_with_dims q s tw th = Except.error e)
    ∧ (∀ H e, compute_homography q (dst_rect tw th) = Except.ok H →
        invert_3x3 H = Except.error e →
        crop_with_dims q s tw th = Except.error e)
    ∧ (∀ c, perform_crop c s = crop_with_dims (copy_quad c) s
        (target_width (copy_quad c)).toNat (target_height (copy_quad c)).toNat) := by
  refine ⟨?_, ?_, fun c => rfl⟩
  · intro e he
    unfold crop_with_dims
    rw [he]
  · intro H e hH hI
    unfold crop_with_dims
    rw [hH]
    show (match invert_3x3 H with
      | Except.error e => Except.error e
      | Except.ok Hinv => Except.ok (resample_loop Hinv s tw th)) = Except.error e
    rw [hI]

/-- Witness for C4: the fully degenerate quad makes the solver fail and the
crop tail abort with that failure. -/
theorem homography_failure_aborts_witness :
    crop_with_dims zero_quad img1 1 1 = Except.error CropError.singularTransform :=
  (homography_failure_aborts zero_quad img1 1 1).1 CropError.singularTransform
    (by with_unfolding_all rfl)

/-- C5 (amended): the perspective divide of the resampling loop is not
guarded.  The crop tail can never fail with `AtInfinity`, and for every
destination pixel — with no hypothesis on the homogeneous weight `w`, zero
included — the loop stores the bilinear sample at `(x_h / w_h, y_h / w_h)`
and returns a completely filled buffer. -/
theorem perspective_divide_unguarded (q : Quad) (s : ImageData) (tw th : ℕ) (Hinv : Mat3) :
    crop_with_dims q s tw th ≠ Except.error CropError.atInfinity
    ∧ (resample_loop Hinv s tw th).length = tw * th * 4
    ∧ (∀ i j k, i < tw → j < th → k < 4 →
        (resample_loop Hinv s tw th).getD ((j * tw + i) * 4 + k) 0 =
          RGBA.ch (bilinear_sample s
            ((multiply_mat3_vec3 Hinv ((i : ℚ), (j : ℚ), 1)).1 /
              (multiply_mat3_vec3 Hinv ((i : ℚ), (j : ℚ), 1)).2.2)
            ((multiply_mat3_vec3 Hinv ((i : ℚ), (j : ℚ), 1)).2.1 /
              (multiply_mat3_vec3 Hinv ((i : ℚ), (j : ℚ), 1)).2.2)) k) := by
  refine ⟨?_, resample_loop_length Hinv s tw th, ?_⟩
  · intro hcontra
    rw [crop_with_dims_eq_bind] at hcontra
    cases hc : compute_homography q (dst_rect tw th) with
    | error e =>
      rw [hc] at hcontra
      have he := compute_homography_error q (dst_rect tw th) e hc
      subst he
      exact CropError.noConfusion (Except.error.inj hcontra)
    | ok H =>
      rw [hc] at hcontra
      cases hI : invert_3x3 H with
      | error e =>
        rw [show (Except.ok H).bind (fun H2 => (invert_3x3 H2).bind fun Hinv2 =>
            Except.ok (resample_loop Hinv2 s tw th)) = (invert_3x3 H).bind (fun Hinv2 =>
            Except.ok (resample_loop Hinv2 s tw th)) from rfl, hI] at hcontra
        have he := invert_3x3_error H e hI
        subst he
        exact CropError.noConfusion (Except.error.inj hcontra)
      | ok Hinv2 =>
        rw [show (Except.ok H).bind (fun H2 => (invert_3x3 H2).bind fun Hinv2 =>
            Except.ok (resample_loop Hinv2 s tw th)) = (invert_3x3 H).bind (fun Hinv2 =>
            Except.ok (resample_loop Hinv2 s tw th)) from rfl, hI] at hcontra
        exact Except.noConfusion hcontra
  · intro i j k hi hj hk
    exact resample_loop_getD Hinv s tw th i j k hi hj hk

/-- Witness for C5's amended theorem at a concrete input whose homogeneous
weight is identically zero. -/
theorem perspective_divide_unguarded_witness :
    (resample_loop matW0 img1 1 1).getD ((0 * 1 + 0) * 4 + 0) 0 =
      RGBA.ch (bilinear_sample img1
        ((multiply_mat3_vec3 matW0 ((0 : ℚ), (0 : ℚ), 1)).1 /
          (multiply_mat3_vec3 matW0 ((0 : ℚ), (0 : ℚ), 1)).2.2)
        ((multiply_mat3_vec3 matW0 ((0 : ℚ), (0 : ℚ), 1)).2.1 /
          (multiply_mat3_vec3 matW0 ((0 : ℚ), (0 : ℚ), 1)).2.2)) 0 :=
  (perspective_divide_unguarded zero_quad img1 1 1 matW0).2.2 0 0 0
    (by decide) (by decide) (by decide)

/-- C5 counterexample: at `H_inv = matW0` every projected pixel has
homogeneous weight exactly 0 (below any tolerance), yet the resampling loop
does not fail with `AtInfinity`: it performs the divide and returns a fully
written buffer (here the sampled source pixel, not the zeroed initial
buffer). -/
theorem at_infinity_guard_cex :
    (multiply_mat3_vec3 matW0 ((0 : ℚ), (0 : ℚ), 1)).2.2 = 0
    ∧ resample_loop matW0 img1 1 1 = [5, 6, 7, 8]
    ∧ resample_loop matW0 img1 1 1 ≠ List.replicate 4 0 := by
  refine ⟨by with_unfolding_all rfl, by with_unfolding_all rfl, ?_⟩
  rw [show resample_loop matW0 img1 1 1 = [5, 6, 7, 8] from by with_unfolding_all rfl]
  simp

/-- C6: the destination quad handed to the homography solver is always the
axis-aligned rectangle `(0,0), (w,0), (w,h), (0,h)` at the computed target
size, and both dimensions are positive. -/
theorem dst_rect_canonical (c : Quad) (s : ImageData) :
    (∀ tw th : ℕ, dst_rect tw th =
      ⟨⟨0, 0⟩, ⟨(tw : ℚ), 0⟩, ⟨(tw : ℚ), (th : ℚ)⟩, ⟨0, (th : ℚ)⟩⟩)
    ∧ (∀ q tw th, crop_with_dims q s tw th =
        (compute_homography q (dst_rect tw th)).bind (fun H =>
          (invert_3x3 H).bind (fun Hinv => Except.ok (resample_loop Hinv s tw th))))
    ∧ perform_crop c s = crop_with_dims (copy_quad c) s
        (target_width (copy_quad c)).toNat (target_height (copy_quad c)).toNat
    ∧ 1 ≤ (target_width (copy_quad c)).toNat
    ∧ 1 ≤ (target_height (copy_quad c)).toNat := by
  refine ⟨fun tw th => rfl, fun q tw th => crop_with_dims_eq_bind q s tw th, rfl, ?_, ?_⟩
  · exact (target_dims_pos (copy_quad c)).1
  · exact (target_dims_pos (copy_quad c)).2

/-- C7: when the homography solver succeeds and the inverter succeeds on its
result, the inverse is an exact left inverse: `H_inv * H` is the identity
matrix (exactly, hence within any tolerance). -/
theorem homography_roundtrip (src dst : Quad) (H Hi : Mat3)
    (_hH : compute_homography src dst = Except.ok H)
    (hInv : invert_3x3 H = Except.ok Hi) :
    mat_mul Hi H = mat_id :=
  (invert_3x3_ok H Hi hInv).2

/-- Witness for C7: the unit square mapped to the unit destination rectangle
yields the identity homography, whose inverse round-trips exactly. -/
theorem homography_roundtrip_witness : mat_mul mat_id mat_id = mat_id :=
  homography_roundtrip unit_quad (dst_rect 1 1) mat_id mat_id
    (by with_unfolding_all rfl) (by with_unfolding_all rfl)

/-- C8: a crop leaves its inputs unchanged.  The state transformer of
`perform_crop` preserves the corner quad and the source buffer in every
outcome, reads the corners only through a per-call copy that equals them,
and its only data output is the freshly computed cropped canvas of exactly
the computed size. -/
theorem perform_crop_preserves_inputs (s : AppState) :
    (perform_crop_app s).map AppState.corners =
      (perform_crop_app s).map (fun _ => s.corners)
    ∧ (perform_crop_app s).map AppState.src_image_data =
      (perform_crop_app s).map (fun _ => s.src_image_data)
    ∧ copy_quad s.corners = s.corners
    ∧ (perform_crop_app s).map
        (fun r => r.cropped_canvas.map (fun t => (t.1, t.2.1, t.2.2.length))) =
      (perform_crop_app s).map (fun _ => some
        ((target_width s.corners).toNat, (target_height s.corners).toNat,
         (target_width s.corners).toNat * (target_height s.corners).toNat * 4)) := by
  have hcopy : copy_quad s.corners = s.corners := rfl
  have hdef : perform_crop_app s =
      match compute_homography s.corners
          (dst_rect (target_width s.corners).toNat (target_height s.corners).toNat) with
      | Except.error e => Except.error e
      | Except.ok H =>
        match invert_3x3 H with
        | Except.error e => Except.error e
        | Except.ok Hinv =>
          Except.ok (cropped_result s Hinv (target_width s.corners).toNat
            (target_height s.corners).toNat) := rfl
  have key : ∀ r, perform_crop_app s = Except.ok r →
      r.corners = s.corners ∧ r.src_image_data = s.src_image_data ∧
      r.cropped_canvas.map (fun t => (t.1, t.2.1, t.2.2.length)) = some
        ((target_width s.corners).toNat, (target_height s.corners).toNat,
         (target_width s.corners).toNat * (target_height s.corners).toNat * 4) := by
    intro r hr
    rw [hdef] at hr
    cases hc : compute_homography s.corners
        (dst_rect (target_width s.corners).toNat (target_height s.corners).toNat) with
    | error e => simp [hc] at hr
    | ok H =>
      cases hI : invert_3x3 H with
      | error e => simp [hc, hI] at hr
      | ok Hinv =>
        simp only [hc, hI, Except.ok.injEq] at hr
        rw [← hr]
        refine ⟨rfl, rfl, ?_⟩
        simp [cropped_result, resample_loop_length]
  refine ⟨?_, ?_, hcopy, ?_⟩
  · cases hr : perform_crop_app s with
    | error e => rfl
    | ok r => simp [Except.map, (key r hr).1]
  · cases hr : perform_crop_app s with
    | error e => rfl
    | ok r => simp [Except.map, (key r hr).2.1]
  · cases hr : perform_crop_app s with
    | error e => rfl
    | ok r => simp [Except.map, (key r hr).2.2]

/-- C9: the crop core is deterministic — equal corner quads and equal source
buffers give identical results, the same buffer on success and the same
failure on failure. -/
theorem crop_core_deterministic (c1 c2 : Quad) (s1 s2 : ImageData)
    (hc : c1 = c2) (hs : s1 = s2) :
    crop_click c1 s1 = crop_click c2 s2 ∧ perform_crop c1 s1 = perform_crop c2 s2 := by
  subst hc
  subst hs
  exact ⟨rfl, rfl⟩

/-- Witness for C9 at concrete equal inputs. -/
theorem crop_core_deterministic_witness :
    crop_click bowtie_quad img1 = crop_click bowtie_quad img1 :=
  (crop_core_deterministic bowtie_quad bowtie_quad img1 img1 rfl rfl).1

/-- C10: every UI corner mutation — mouse drag, touch drag, arrow-key nudge —
clamps the moved corner into `[0, W] × [0, H]`, so from an in-bounds corner
state every reachable state stays in bounds. -/
theorem corner_updates_stay_in_bounds (q : Quad) (W H mx my tx ty : ℚ)
    (drag sel : Option (Fin 4)) (k : ArrowKey) (shift : Bool)
    (hW : 0 ≤ W) (hH : 0 ≤ H) (hq : in_bounds W H q) :
    in_bounds W H (mousemove_update q drag W H mx my)
    ∧ in_bounds W H (touchmove_update q drag W H tx ty)
    ∧ in_bounds W H (keydown_update q sel W H k shift) := by
  refine ⟨?_, ?_, ?_⟩
  · cases drag with
    | none => exact hq
    | some i =>
      exact set_in_bounds W H q _ i hq
        ⟨(clamp_bounds W mx hW).1, (clamp_bounds W mx hW).2,
         (clamp_bounds H my hH).1, (clamp_bounds H my hH).2⟩
  · cases drag with
    | none => exact hq
    | some i =>
      exact set_in_bounds W H q _ i hq
        ⟨(clamp_bounds W tx hW).1, (clamp_bounds W tx hW).2,
         (clamp_bounds H ty hH).1, (clamp_bounds H ty hH).2⟩
  · cases sel with
    | none => exact hq
    | some i =>
      exact set_in_bounds W H q _ i hq
        ⟨(clamp_bounds W ((q.get i).x + (key_delta k shift).1) hW).1,
         (clamp_bounds W ((q.get i).x + (key_delta k shift).1) hW).2,
         (clamp_bounds H ((q.get i).y + (key_delta k shift).2) hH).1,
         (clamp_bounds H ((q.get i).y + (key_delta k shift).2) hH).2⟩

/-- Witness for C10 at a concrete in-bounds quad and concrete events. -/
theorem corner_updates_stay_in_bounds_witness :
    in_bounds 10 10 (mousemove_update ⟨⟨1, 1⟩, ⟨9, 1⟩, ⟨9, 9⟩, ⟨1, 9⟩⟩
      (some 0) 10 10 20 (-5)) :=
  (corner_updates_stay_in_bounds ⟨⟨1, 1⟩, ⟨9, 1⟩, ⟨9, 9⟩, ⟨1, 9⟩⟩ 10 10 20 (-5) 3 3
    (some 0) (some 2) ArrowKey.right true
    (by norm_num) (by norm_num)
    (by refine (in_bounds_mk 10 10 _ _ _ _).mpr ?_; norm_num)).1

end Geocropper
